import Mathlib

/-!
Shallow embedding of the Minesweeper core of `src/App.tsx` (repository
Richarddsr/CampoMinado): board generation (`generateBoard`), the reveal and
toggle-flag transitions (`revealCell`, `toggleFlag`) and the game state they
act on.  Mutation of the `Cell[][]` grid is modelled by functional update;
the stream of `Math.floor(Math.random() * size)` pairs consumed by the mine
placement loop is modelled as an explicit list of draws; a JavaScript
`TypeError` raised by indexing past the end of the grid is modelled by an
`Except` error result.
-/

namespace CampoMinado

/-- `interface Cell` of App.tsx. -/
structure Cell where
  revealed : Bool
  mine : Bool
  adjacentMines : Nat
  flagged : Bool
deriving DecidableEq, Repr

/-- `Cell[][]` — a grid addressed as `board[row][col]`. -/
abbrev Board := List (List Cell)

/-- `const BOARD_SIZE = 10`. -/
def BOARD_SIZE : Nat := 10

/-- `const TOTAL_MINES = 15`. -/
def TOTAL_MINES : Nat := 15

/-- The cell value every grid position starts from in `generateBoard`. -/
def freshCell : Cell :=
  { revealed := false, mine := false, adjacentMines := 0, flagged := false }

/-- The `Array.from` allocation at the top of `generateBoard`:
a `size × size` grid of fresh cells. -/
def mkGrid (size : Nat) : Board :=
  List.replicate size (List.replicate size freshCell)

/-- `board[r][c]` as an optional lookup; `none` is JavaScript's
`undefined`-then-`TypeError` path for an out-of-range index. -/
def cellAt? (b : Board) (r c : Nat) : Option Cell :=
  b[r]?.bind (fun row => row[c]?)

/-- Update one entry of a list in place, as `l[i] = v` does on a JS array
(no effect out of range; all uses below are guarded in range). -/
def modifyAt (f : α → α) : List α → Nat → List α
  | [], _ => []
  | a :: l, 0 => f a :: l
  | a :: l, n + 1 => a :: modifyAt f l n

/-- `board[r][c] = f (board[r][c])` — the in-place cell mutations of App.tsx. -/
def modifyCell (b : Board) (r c : Nat) (f : Cell → Cell) : Board :=
  modifyAt (fun row => modifyAt f row c) b r

/-- Number of cells of the grid satisfying `p`. -/
def countCells (p : Cell → Bool) (b : Board) : Nat :=
  (b.map (fun row => row.countP p)).sum

/-- Number of mines on the grid. -/
def countMines (b : Board) : Nat := countCells Cell.mine b

/-- Number of non-mine cells on the grid. -/
def countFree (b : Board) : Nat := countCells (fun cl => !cl.mine) b

/-- The `while (placedMines < mines)` rejection-sampling loop of
`generateBoard`.  `draws` is the (finite) list of random `(row, col)` pairs
available to the run; the result is `some` exactly when the loop reached
`placedMines = mines` before exhausting them, and `none` when the loop is
still running as the supply ends.  `Math.floor(Math.random() * size)` always
lies in `[0, size)`, so the out-of-range draw branch is never exercised by
the source. -/
def placeMines (mines : Nat) : Board → Nat → List (Nat × Nat) → Option Board
  | b, placed, [] => if placed < mines then none else some b
  | b, placed, (r, c) :: rest =>
    if placed < mines then
      match cellAt? b r c with
      | none => none
      | some cell =>
        if cell.mine then placeMines mines b placed rest
        else placeMines mines (modifyCell b r c (fun cl => { cl with mine := true })) (placed + 1) rest
    else some b

/-- The `adjacentCells` offset table of `generateBoard`. -/
def neighborOffsets : List (Int × Int) :=
  [(-1, -1), (-1, 0), (-1, 1), (0, -1), (0, 1), (1, -1), (1, 0), (1, 1)]

/-- `board[r][c].mine`, read after a bounds check has succeeded. -/
def mineAt (b : Board) (r c : Nat) : Bool :=
  ((cellAt? b r c).map Cell.mine).getD false

/-- The `newRow >= 0 && newRow < size` bounds check. -/
def inRange (size : Nat) (x : Int) : Bool :=
  decide (0 ≤ x) && decide (x < (size : Int))

/-- The `adjacentMinesCount` accumulated by the `adjacentCells.forEach`
loop for the cell at `(row, col)`. -/
def countAdjacent (size : Nat) (b : Board) (row col : Nat) : Nat :=
  neighborOffsets.countP (fun d =>
    inRange size ((row : Int) + d.1) && inRange size ((col : Int) + d.2) &&
      mineAt b ((row : Int) + d.1).toNat ((col : Int) + d.2).toNat)

/-- Body of the adjacency-filling double loop: skip mines, otherwise store
the neighbor mine count into `adjacentMines`.  The `none` branch is
unreachable — the loop indices are in range of the grid. -/
def adjStep (size : Nat) (b : Board) (p : Nat × Nat) : Board :=
  match cellAt? b p.1 p.2 with
  | none => b
  | some cell =>
    if cell.mine then b
    else modifyCell b p.1 p.2 (fun cl => { cl with adjacentMines := countAdjacent size b p.1 p.2 })

/-- The `for (row) for (col)` adjacency pass of `generateBoard`, threading
the mutated board through both loops. -/
def fillAdjacent (size : Nat) (b0 : Board) : Board :=
  (List.range size).foldl (fun b row =>
    (List.range size).foldl (fun b col => adjStep size b (row, col)) b) b0

/-- The row-major list of `(row, col)` index pairs visited by the
adjacency-filling double loop. -/
def gridPositions (size : Nat) : List (Nat × Nat) :=
  (List.range size).flatMap (fun row => (List.range size).map (fun col => (row, col)))

/-- The in-range grid cell an offset `d` of the `adjacentCells` table points
to from `(row, col)`, if any — the bounds check of the `forEach` body. -/
def offsetTarget (size : Nat) (row col : Nat) (d : Int × Int) : Option (Nat × Nat) :=
  if inRange size ((row : Int) + d.1) && inRange size ((col : Int) + d.2) then
    some (((row : Int) + d.1).toNat, ((col : Int) + d.2).toNat)
  else none

/-- Stated from the spec's words: the number of cells of the grid that lie
in the Moore neighborhood of `(row, col)` — a different cell at
row and column distance at most 1 — and hold a mine. -/
def mooreMineCount (size : Nat) (b : Board) (row col : Nat) : Nat :=
  (gridPositions size).countP (fun q =>
    decide (¬(q = (row, col))) && decide (Nat.dist q.1 row ≤ 1) &&
      decide (Nat.dist q.2 col ≤ 1) && mineAt b q.1 q.2)

/-- `generateBoard(size, mines)`: allocate, place mines from the random
draws, fill adjacency counts. -/
def generateBoard (size mines : Nat) (draws : List (Nat × Nat)) : Option Board :=
  (placeMines mines (mkGrid size) 0 draws).map (fillAdjacent size)

/-- A JavaScript runtime error; the only one this code can raise is the
`TypeError` from reading a property of `undefined` after indexing out of
range. -/
inductive JsError where
  | typeError
deriving DecidableEq, Repr

/-- The React component state: `board`, `gameOver`, `gameWon`, `flags`. -/
structure GameState where
  board : Board
  gameOver : Bool
  gameWon : Bool
  flags : Int
deriving DecidableEq, Repr

/-- The initial component state and the state `resetGame` installs:
a fresh board, both terminal flags down, `flags = TOTAL_MINES`. -/
def newGame (b : Board) : GameState :=
  { board := b, gameOver := false, gameWon := false, flags := (TOTAL_MINES : Int) }

/-- `newBoard.every(row => row.every(cell => cell.revealed || cell.mine))` —
the win condition scanned after a safe reveal. -/
def winCheck (b : Board) : Bool :=
  b.all (fun row => row.all (fun cell => cell.revealed || cell.mine))

/-- `revealCell(row, col)` of App.tsx. -/
def revealCell (s : GameState) (row col : Nat) : Except JsError GameState :=
  if s.gameOver || s.gameWon then .ok s
  else
    match cellAt? s.board row col with
    | none => .error .typeError
    | some cell =>
      if cell.revealed || cell.flagged then .ok s
      else
        let newBoard := modifyCell s.board row col (fun cl => { cl with revealed := true })
        match cellAt? newBoard row col with
        | none => .error .typeError
        | some cell2 =>
          if cell2.mine then .ok { s with board := newBoard, gameOver := true }
          else if winCheck newBoard then .ok { s with board := newBoard, gameWon := true }
          else .ok { s with board := newBoard }

/-- `toggleFlag(row, col)` of App.tsx; the flag counter update reads the
freshly toggled `newBoard[row][col].flagged`. -/
def toggleFlag (s : GameState) (row col : Nat) : Except JsError GameState :=
  if s.gameOver || s.gameWon then .ok s
  else
    match cellAt? s.board row col with
    | none => .error .typeError
    | some cell =>
      if cell.revealed then .ok s
      else
        let newBoard := modifyCell s.board row col (fun cl => { cl with flagged := !cl.flagged })
        match cellAt? newBoard row col with
        | none => .error .typeError
        | some cell2 =>
          .ok { s with
                board := newBoard
                flags := if cell2.flagged then s.flags - 1 else s.flags + 1 }

/-- `resetGame`: a brand-new game from a fresh generator run. -/
def resetGame (draws : List (Nat × Nat)) : Option GameState :=
  (generateBoard BOARD_SIZE TOTAL_MINES draws).map newGame

/-- One player action dispatched by the UI. -/
inductive Action where
  | reveal (row col : Nat)
  | flag (row col : Nat)
deriving DecidableEq, Repr

/-- Resulting component state of one handler call: on a thrown `TypeError`
no state setter has run yet, so the component state is unchanged. -/
def runExcept (s : GameState) : Except JsError GameState → GameState
  | .ok s' => s'
  | .error _ => s

/-- Apply one player action to the state. -/
def step (s : GameState) : Action → GameState
  | .reveal r c => runExcept s (revealCell s r c)
  | .flag r c => runExcept s (toggleFlag s r c)

/-- Run a whole sequence of player actions. -/
def runGame (s : GameState) (acts : List Action) : GameState :=
  acts.foldl step s

/-! ### Basic lemmas about grid access and update -/

theorem getElem?_modifyAt (f : α → α) (l : List α) (i j : Nat) :
    (modifyAt f l i)[j]? = if i = j then (l[j]?).map f else l[j]? := by
  induction l generalizing i j with
  | nil => simp [modifyAt]
  | cons a l ih =>
    cases i with
    | zero => cases j <;> simp [modifyAt]
    | succ i =>
      cases j with
      | zero => simp [modifyAt]
      | succ j => simpa [modifyAt] using ih i j

theorem length_modifyAt (f : α → α) (l : List α) (i : Nat) :
    (modifyAt f l i).length = l.length := by
  induction l generalizing i with
  | nil => simp [modifyAt]
  | cons a l ih => cases i <;> simp [modifyAt, ih]

theorem cellAt?_modifyCell (b : Board) (r c : Nat) (f : Cell → Cell) (r' c' : Nat) :
    cellAt? (modifyCell b r c f) r' c' =
      if r = r' ∧ c = c' then (cellAt? b r' c').map f else cellAt? b r' c' := by
  unfold cellAt? modifyCell
  rw [getElem?_modifyAt]
  by_cases hr : r = r'
  · subst hr
    cases hb : b[r]? with
    | none => simp
    | some row => simp [getElem?_modifyAt]
  · simp [hr]

theorem countP_modifyAt_add (p : α → Bool) (f : α → α) (l : List α) (c : Nat) (a : α)
    (h : l[c]? = some a) (h1 : p a = false) (h2 : p (f a) = true) :
    (modifyAt f l c).countP p = l.countP p + 1 := by
  induction l generalizing c with
  | nil => simp at h
  | cons x l ih =>
    cases c with
    | zero =>
      simp only [List.getElem?_cons_zero, Option.some.injEq] at h
      subst h
      simp [modifyAt, List.countP_cons, h1, h2]
    | succ c =>
      simp only [List.getElem?_cons_succ] at h
      simp [modifyAt, List.countP_cons, ih c h]
      omega

theorem countP_modifyAt_sub (p : α → Bool) (f : α → α) (l : List α) (c : Nat) (a : α)
    (h : l[c]? = some a) (h1 : p a = true) (h2 : p (f a) = false) :
    l.countP p = (modifyAt f l c).countP p + 1 := by
  induction l generalizing c with
  | nil => simp at h
  | cons x l ih =>
    cases c with
    | zero =>
      simp only [List.getElem?_cons_zero, Option.some.injEq] at h
      subst h
      simp [modifyAt, List.countP_cons, h1, h2]
    | succ c =>
      simp only [List.getElem?_cons_succ] at h
      simp [modifyAt, List.countP_cons, ih c h]
      omega

theorem countP_modifyAt_eq (p : α → Bool) (f : α → α) (l : List α) (c : Nat)
    (hp : ∀ x, p (f x) = p x) :
    (modifyAt f l c).countP p = l.countP p := by
  induction l generalizing c with
  | nil => simp [modifyAt]
  | cons x l ih =>
    cases c with
    | zero => simp [modifyAt, List.countP_cons, hp]
    | succ c => simp [modifyAt, List.countP_cons, ih c]

theorem countCells_modify_add (p : Cell → Bool) (f : Cell → Cell) (b : Board) (r c : Nat)
    (cell : Cell) (h : cellAt? b r c = some cell) (h1 : p cell = false) (h2 : p (f cell) = true) :
    countCells p (modifyCell b r c f) = countCells p b + 1 := by
  induction b generalizing r with
  | nil => simp [cellAt?] at h
  | cons row rest ih =>
    cases r with
    | zero =>
      simp only [cellAt?, List.getElem?_cons_zero, Option.some_bind] at h
      simp [modifyCell, modifyAt, countCells, countP_modifyAt_add p f row c cell h h1 h2]
      omega
    | succ r =>
      simp only [cellAt?, List.getElem?_cons_succ] at h
      have := ih r (by simpa [cellAt?] using h)
      simp only [modifyCell, modifyAt, countCells, List.map_cons, List.sum_cons] at this ⊢
      omega

theorem countCells_modify_sub (p : Cell → Bool) (f : Cell → Cell) (b : Board) (r c : Nat)
    (cell : Cell) (h : cellAt? b r c = some cell) (h1 : p cell = true) (h2 : p (f cell) = false) :
    countCells p b = countCells p (modifyCell b r c f) + 1 := by
  induction b generalizing r with
  | nil => simp [cellAt?] at h
  | cons row rest ih =>
    cases r with
    | zero =>
      simp only [cellAt?, List.getElem?_cons_zero, Option.some_bind] at h
      have hrow := countP_modifyAt_sub p f row c cell h h1 h2
      simp only [modifyCell, modifyAt, countCells, List.map_cons, List.sum_cons] at hrow ⊢
      omega
    | succ r =>
      simp only [cellAt?, List.getElem?_cons_succ] at h
      have := ih r (by simpa [cellAt?] using h)
      simp only [modifyCell, modifyAt, countCells, List.map_cons, List.sum_cons] at this ⊢
      omega

theorem countCells_modify_eq (p : Cell → Bool) (f : Cell → Cell) (b : Board) (r c : Nat)
    (hp : ∀ cl, p (f cl) = p cl) :
    countCells p (modifyCell b r c f) = countCells p b := by
  induction b generalizing r with
  | nil => simp [modifyCell, modifyAt]
  | cons row rest ih =>
    cases r with
    | zero => simp [modifyCell, modifyAt, countCells, countP_modifyAt_eq p f row c hp]
    | succ r =>
      have := ih r
      simp only [modifyCell, modifyAt, countCells, List.map_cons, List.sum_cons] at this ⊢
      omega

theorem countP_replicate (p : α → Bool) (a : α) (n : Nat) :
    (List.replicate n a).countP p = if p a then n else 0 := by
  induction n with
  | zero => simp
  | succ n ih =>
    cases hpa : p a <;> simp [List.replicate_succ, List.countP_cons, ih, hpa]

theorem sum_replicate_nat (n m : Nat) : (List.replicate n m).sum = n * m := by
  induction n with
  | zero => simp
  | succ n ih => simp [List.replicate_succ, ih, Nat.succ_mul]; omega

theorem cellAt?_mkGrid (size r c : Nat) :
    cellAt? (mkGrid size) r c = if r < size ∧ c < size then some freshCell else none := by
  unfold cellAt? mkGrid
  rw [List.getElem?_replicate]
  by_cases hr : r < size
  · simp [hr, List.getElem?_replicate]
  · simp [hr]

theorem countFree_mkGrid (size : Nat) : countFree (mkGrid size) = size * size := by
  simp [countFree, countCells, mkGrid, List.map_replicate, countP_replicate, freshCell,
    sum_replicate_nat]

theorem countMines_mkGrid (size : Nat) : countMines (mkGrid size) = 0 := by
  simp [countMines, countCells, mkGrid, List.map_replicate, countP_replicate, freshCell,
    sum_replicate_nat]

theorem modifyCell_length (b : Board) (r c : Nat) (f : Cell → Cell) :
    (modifyCell b r c f).length = b.length :=
  length_modifyAt _ b r

theorem modifyCell_rowLength (b : Board) (r c : Nat) (f : Cell → Cell) (j : Nat) :
    ((modifyCell b r c f)[j]?).map List.length = (b[j]?).map List.length := by
  unfold modifyCell
  rw [getElem?_modifyAt]
  by_cases h : r = j
  · subst h
    cases b[r]? <;> simp [length_modifyAt]
  · simp [h]

/-! ### Lemmas about the mine placement loop -/

theorem placeMines_preserves (mines : Nat) (draws : List (Nat × Nat)) :
    ∀ b placed b', placeMines mines b placed draws = some b' →
      ∀ r c, (cellAt? b' r c).map (fun cl => (cl.revealed, cl.flagged, cl.adjacentMines)) =
        (cellAt? b r c).map (fun cl => (cl.revealed, cl.flagged, cl.adjacentMines)) := by
  induction draws with
  | nil =>
    intro b placed b' h r c
    simp only [placeMines] at h
    by_cases hp : placed < mines
    · rw [if_pos hp] at h; cases h
    · rw [if_neg hp] at h; cases h; rfl
  | cons d rest ih =>
    intro b placed b' h r c
    obtain ⟨dr, dc⟩ := d
    simp only [placeMines] at h
    by_cases hp : placed < mines
    · rw [if_pos hp] at h
      cases hc : cellAt? b dr dc with
      | none => rw [hc] at h; cases h
      | some cell =>
        rw [hc] at h
        simp only at h
        by_cases hm : cell.mine = true
        · rw [if_pos hm] at h
          exact ih b placed b' h r c
        · rw [if_neg hm] at h
          rw [ih _ _ _ h r c, cellAt?_modifyCell]
          by_cases hrc : dr = r ∧ dc = c
          · rw [if_pos hrc]
            cases cellAt? b r c <;> simp
          · rw [if_neg hrc]
    · rw [if_neg hp] at h
      cases h; rfl

theorem placeMines_length (mines : Nat) (draws : List (Nat × Nat)) :
    ∀ b placed b', placeMines mines b placed draws = some b' →
      b'.length = b.length ∧ ∀ j : Nat, (b'[j]?).map List.length = (b[j]?).map List.length := by
  induction draws with
  | nil =>
    intro b placed b' h
    simp only [placeMines] at h
    by_cases hp : placed < mines
    · rw [if_pos hp] at h; cases h
    · rw [if_neg hp] at h; cases h; exact ⟨rfl, fun _ => rfl⟩
  | cons d rest ih =>
    intro b placed b' h
    obtain ⟨dr, dc⟩ := d
    simp only [placeMines] at h
    by_cases hp : placed < mines
    · rw [if_pos hp] at h
      cases hc : cellAt? b dr dc with
      | none => rw [hc] at h; cases h
      | some cell =>
        rw [hc] at h
        simp only at h
        by_cases hm : cell.mine = true
        · rw [if_pos hm] at h
          exact ih b placed b' h
        · rw [if_neg hm] at h
          obtain ⟨h1, h2⟩ := ih _ _ _ h
          refine ⟨h1.trans (modifyCell_length ..), fun j => (h2 j).trans (modifyCell_rowLength ..)⟩
    · rw [if_neg hp] at h
      cases h; exact ⟨rfl, fun _ => rfl⟩

theorem placeMines_countMines (mines : Nat) (draws : List (Nat × Nat)) :
    ∀ b placed b', countMines b = placed → placed ≤ mines →
      placeMines mines b placed draws = some b' → countMines b' = mines := by
  induction draws with
  | nil =>
    intro b placed b' hcount hle h
    simp only [placeMines] at h
    by_cases hp : placed < mines
    · rw [if_pos hp] at h; cases h
    · rw [if_neg hp] at h; cases h; omega
  | cons d rest ih =>
    intro b placed b' hcount hle h
    obtain ⟨dr, dc⟩ := d
    simp only [placeMines] at h
    by_cases hp : placed < mines
    · rw [if_pos hp] at h
      cases hc : cellAt? b dr dc with
      | none => rw [hc] at h; cases h
      | some cell =>
        rw [hc] at h
        simp only at h
        by_cases hm : cell.mine = true
        · rw [if_pos hm] at h
          exact ih b placed b' hcount hle h
        · rw [if_neg hm] at h
          refine ih _ (placed + 1) b' ?_ (by omega) h
          have hadd := countCells_modify_add Cell.mine (fun cl => { cl with mine := true })
            b dr dc cell hc (by simpa using hm) rfl
          unfold countMines at hcount ⊢
          omega
    · rw [if_neg hp] at h
      cases h; omega

theorem placeMines_none (mines : Nat) (draws : List (Nat × Nat)) :
    ∀ b placed, placed + countFree b < mines →
      placeMines mines b placed draws = none := by
  induction draws with
  | nil =>
    intro b placed hlt
    simp only [placeMines]
    rw [if_pos (by omega)]
  | cons d rest ih =>
    intro b placed hlt
    obtain ⟨dr, dc⟩ := d
    simp only [placeMines]
    rw [if_pos (by omega)]
    cases hc : cellAt? b dr dc with
    | none => rfl
    | some cell =>
      simp only
      by_cases hm : cell.mine = true
      · rw [if_pos hm]; exact ih b placed hlt
      · rw [if_neg hm]
        refine ih _ (placed + 1) ?_
        have hsub := countCells_modify_sub (fun cl => !cl.mine) (fun cl => { cl with mine := true })
          b dr dc cell hc (by simpa using hm) rfl
        simp only [countFree] at hlt ⊢
        omega

/-! ### Lemmas about the adjacency-filling pass -/

theorem foldl_foldl_flatMap (g : α → (Nat × Nat) → α) (l1 l2 : List Nat) :
    ∀ b : α, l1.foldl (fun b x => l2.foldl (fun b y => g b (x, y)) b) b =
      (l1.flatMap (fun x => l2.map (fun y => (x, y)))).foldl g b := by
  induction l1 with
  | nil => intro b; rfl
  | cons x tl ih =>
    intro b
    rw [List.foldl_cons, ih, List.flatMap_cons, List.foldl_append, List.foldl_map]

theorem fillAdjacent_eq_foldl (size : Nat) (b : Board) :
    fillAdjacent size b = (gridPositions size).foldl (adjStep size) b :=
  foldl_foldl_flatMap (adjStep size) _ _ b

theorem mem_gridPositions (size r c : Nat) :
    (r, c) ∈ gridPositions size ↔ r < size ∧ c < size := by
  simp [gridPositions, List.mem_flatMap, List.mem_map, List.mem_range, Prod.mk.injEq]

theorem adjStep_components (size : Nat) (b : Board) (p : Nat × Nat) (r c : Nat) :
    (cellAt? (adjStep size b p) r c).map (fun cl => (cl.revealed, cl.mine, cl.flagged)) =
      (cellAt? b r c).map (fun cl => (cl.revealed, cl.mine, cl.flagged)) := by
  unfold adjStep
  cases hc : cellAt? b p.1 p.2 with
  | none => rfl
  | some cell =>
    simp only
    by_cases hm : cell.mine = true
    · rw [if_pos hm]
    · rw [if_neg hm, cellAt?_modifyCell]
      by_cases hrc : p.1 = r ∧ p.2 = c
      · rw [if_pos hrc]
        cases cellAt? b r c <;> rfl
      · rw [if_neg hrc]

theorem adjStep_mineAt (size : Nat) (b : Board) (p : Nat × Nat) (r c : Nat) :
    mineAt (adjStep size b p) r c = mineAt b r c := by
  have h := adjStep_components size b p r c
  unfold mineAt
  cases h1 : cellAt? (adjStep size b p) r c <;> cases h2 : cellAt? b r c <;>
    rw [h1, h2] at h <;> simp_all

theorem countAdjacent_congr (size : Nat) (b b' : Board) (row col : Nat)
    (h : ∀ r c, mineAt b' r c = mineAt b r c) :
    countAdjacent size b' row col = countAdjacent size b row col := by
  unfold countAdjacent
  refine List.countP_congr (fun d _ => ?_)
  rw [h]

theorem foldl_adjStep_components (size : Nat) (ps : List (Nat × Nat)) :
    ∀ b r c, (cellAt? (ps.foldl (adjStep size) b) r c).map (fun cl => (cl.revealed, cl.mine, cl.flagged)) =
      (cellAt? b r c).map (fun cl => (cl.revealed, cl.mine, cl.flagged)) := by
  induction ps with
  | nil => intro b r c; rfl
  | cons p tl ih =>
    intro b r c
    rw [List.foldl_cons, ih, adjStep_components]

theorem foldl_adjStep_mineAt (size : Nat) (ps : List (Nat × Nat)) (b : Board) (r c : Nat) :
    mineAt (ps.foldl (adjStep size) b) r c = mineAt b r c := by
  have h := foldl_adjStep_components size ps b r c
  unfold mineAt
  cases h1 : cellAt? (ps.foldl (adjStep size) b) r c <;> cases h2 : cellAt? b r c <;>
    rw [h1, h2] at h <;> simp_all

theorem foldl_adjStep_length (size : Nat) (ps : List (Nat × Nat)) :
    ∀ b : Board, ((ps.foldl (adjStep size) b).length = b.length) ∧
      ∀ j : Nat, ((ps.foldl (adjStep size) b)[j]?).map List.length = (b[j]?).map List.length := by
  induction ps with
  | nil => intro b; exact ⟨rfl, fun _ => rfl⟩
  | cons p tl ih =>
    intro b
    rw [List.foldl_cons]
    obtain ⟨h1, h2⟩ := ih (adjStep size b p)
    have hstep : ((adjStep size b p).length = b.length) ∧
        ∀ j : Nat, ((adjStep size b p)[j]?).map List.length = (b[j]?).map List.length := by
      unfold adjStep
      cases cellAt? b p.1 p.2 with
      | none => exact ⟨rfl, fun _ => rfl⟩
      | some cell =>
        simp only
        by_cases hm : cell.mine = true
        · rw [if_pos hm]; exact ⟨rfl, fun _ => rfl⟩
        · rw [if_neg hm]
          exact ⟨modifyCell_length .., fun j => modifyCell_rowLength ..⟩
    exact ⟨h1.trans hstep.1, fun j => (h2 j).trans (hstep.2 j)⟩

theorem foldl_adjStep_cellAt? (size : Nat) (ps : List (Nat × Nat)) :
    ∀ b r c, cellAt? (ps.foldl (adjStep size) b) r c =
      (cellAt? b r c).map (fun cl =>
        if (r, c) ∈ ps ∧ cl.mine = false then
          { cl with adjacentMines := countAdjacent size b r c } else cl) := by
  induction ps with
  | nil =>
    intro b r c
    rw [List.foldl_nil]
    cases cellAt? b r c <;> simp
  | cons p tl ih =>
    intro b r c
    obtain ⟨p1, p2⟩ := p
    rw [List.foldl_cons, ih]
    have hcnt : countAdjacent size (adjStep size b (p1, p2)) r c = countAdjacent size b r c :=
      countAdjacent_congr size b _ r c (fun r' c' => adjStep_mineAt size b (p1, p2) r' c')
    rw [hcnt]
    unfold adjStep
    cases hc : cellAt? b p1 p2 with
    | none =>
      simp only
      by_cases hrc : p1 = r ∧ p2 = c
      · obtain ⟨rfl, rfl⟩ := hrc
        rw [hc]
        rfl
      · cases hcb : cellAt? b r c with
        | none => rfl
        | some cl =>
          simp only [Option.map_some']
          have : ((r, c) ∈ (p1, p2) :: tl ∧ cl.mine = false) ↔ ((r, c) ∈ tl ∧ cl.mine = false) := by
            simp only [List.mem_cons, Prod.mk.injEq]
            constructor
            · rintro ⟨h | h, hm⟩
              · exact absurd ⟨h.1.symm, h.2.symm⟩ hrc
              · exact ⟨h, hm⟩
            · rintro ⟨h, hm⟩
              exact ⟨Or.inr h, hm⟩
          rw [if_congr this rfl rfl]
    | some cell =>
      simp only
      by_cases hm : cell.mine = true
      · rw [if_pos hm]
        by_cases hrc : p1 = r ∧ p2 = c
        · obtain ⟨rfl, rfl⟩ := hrc
          rw [hc]
          simp [hm]
        · cases hcb : cellAt? b r c with
          | none => rfl
          | some cl =>
            simp only [Option.map_some']
            have : ((r, c) ∈ (p1, p2) :: tl ∧ cl.mine = false) ↔ ((r, c) ∈ tl ∧ cl.mine = false) := by
              simp only [List.mem_cons, Prod.mk.injEq]
              constructor
              · rintro ⟨h | h, hmm⟩
                · exact absurd ⟨h.1.symm, h.2.symm⟩ hrc
                · exact ⟨h, hmm⟩
              · rintro ⟨h, hmm⟩
                exact ⟨Or.inr h, hmm⟩
            rw [if_congr this rfl rfl]
      · rw [if_neg hm, cellAt?_modifyCell]
        by_cases hrc : p1 = r ∧ p2 = c
        · obtain ⟨rfl, rfl⟩ := hrc
          rw [if_pos ⟨rfl, rfl⟩, hc]
          simp only [Option.map_some']
          obtain ⟨cr, cm, ca, cf⟩ := cell
          simp only [Bool.not_eq_true] at hm
          subst hm
          by_cases htl : (p1, p2) ∈ tl <;> simp [htl]
        · rw [if_neg hrc]
          cases hcb : cellAt? b r c with
          | none => rfl
          | some cl =>
            simp only [Option.map_some']
            have : ((r, c) ∈ (p1, p2) :: tl ∧ cl.mine = false) ↔ ((r, c) ∈ tl ∧ cl.mine = false) := by
              simp only [List.mem_cons, Prod.mk.injEq]
              constructor
              · rintro ⟨h | h, hmm⟩
                · exact absurd ⟨h.1.symm, h.2.symm⟩ hrc
                · exact ⟨h, hmm⟩
              · rintro ⟨h, hmm⟩
                exact ⟨Or.inr h, hmm⟩
            rw [if_congr this rfl rfl]

/-! ### The adjacency count agrees with the Moore-neighborhood mine count -/

theorem countP_filterMap_eq (l : List α) (f : α → Option β) (p : α → Bool) (q : β → Bool)
    (h : ∀ a ∈ l, p a = ((f a).map q).getD false) :
    l.countP p = (l.filterMap f).countP q := by
  induction l with
  | nil => simp
  | cons a tl ih =>
    have ha := h a (List.mem_cons_self a tl)
    have htl := ih (fun x hx => h x (List.mem_cons_of_mem a hx))
    rw [List.filterMap_cons]
    cases hf : f a with
    | none =>
      rw [hf] at ha
      simp only [Option.map_none', Option.getD_none] at ha
      rw [List.countP_cons, ha, htl]
      simp
    | some bb =>
      rw [hf] at ha
      simp only [Option.map_some', Option.getD_some] at ha
      rw [List.countP_cons, List.countP_cons, ha, htl]

theorem countAdjacent_eq_filterMap (size : Nat) (b : Board) (row col : Nat) :
    countAdjacent size b row col =
      (neighborOffsets.filterMap (offsetTarget size row col)).countP
        (fun q => mineAt b q.1 q.2) := by
  unfold countAdjacent
  refine countP_filterMap_eq _ _ _ _ (fun d _ => ?_)
  unfold offsetTarget
  by_cases hcond : (inRange size ((row : Int) + d.1) && inRange size ((col : Int) + d.2)) = true
  · rw [if_pos hcond]
    simp only [Option.map_some', Option.getD_some]
    rw [hcond]
    simp
  · rw [if_neg hcond]
    simp only [Option.map_none', Option.getD_none]
    have hf : (inRange size ((row : Int) + d.1) && inRange size ((col : Int) + d.2)) = false := by
      simpa using hcond
    rw [hf]
    simp

theorem mooreMineCount_eq_filter (size : Nat) (b : Board) (row col : Nat) :
    mooreMineCount size b row col =
      ((gridPositions size).filter (fun q =>
          decide (¬(q = (row, col))) && decide (Nat.dist q.1 row ≤ 1) &&
            decide (Nat.dist q.2 col ≤ 1))).countP (fun q => mineAt b q.1 q.2) := by
  unfold mooreMineCount
  rw [List.countP_filter]
  refine List.countP_congr (fun q _ => ?_)
  simp only [Bool.and_eq_true]
  tauto

theorem gridPositions_nodup (size : Nat) : (gridPositions size).Nodup := by
  unfold gridPositions
  rw [List.nodup_flatMap]
  constructor
  · intro x _
    refine List.Nodup.map ?_ (List.nodup_range size)
    intro a b hab
    simpa using congrArg Prod.snd hab
  · refine List.Pairwise.imp ?_ (List.nodup_range size)
    intro a b hab q hqa hqb
    simp only [List.mem_map] at hqa hqb
    obtain ⟨ca, _, rfl⟩ := hqa
    obtain ⟨cb, _, hq⟩ := hqb
    exact hab (congrArg Prod.fst hq).symm

theorem filterMap_offsets_nodup (size row col : Nat) :
    (neighborOffsets.filterMap (offsetTarget size row col)).Nodup := by
  refine List.Nodup.filterMap ?_ (by decide)
  rintro ⟨d1, d2⟩ ⟨e1, e2⟩ ⟨q1, q2⟩ hd he
  simp only [Option.mem_def] at hd he
  unfold offsetTarget at hd he
  by_cases hc1 : (inRange size ((row : Int) + d1) && inRange size ((col : Int) + d2)) = true
  · rw [if_pos hc1] at hd
    by_cases hc2 : (inRange size ((row : Int) + e1) && inRange size ((col : Int) + e2)) = true
    · rw [if_pos hc2] at he
      simp only [Option.some.injEq, Prod.mk.injEq] at hd he
      simp only [inRange, Bool.and_eq_true, decide_eq_true_eq] at hc1 hc2
      simp only [Prod.mk.injEq]
      constructor <;> omega
    · rw [if_neg hc2] at he
      simp at he
  · rw [if_neg hc1] at hd
    simp at hd

set_option maxHeartbeats 1000000 in
theorem mem_filterMap_offsets (size row col : Nat) (q1 q2 : Nat) :
    (q1, q2) ∈ neighborOffsets.filterMap (offsetTarget size row col) ↔
      (q1 < size ∧ q2 < size) ∧ ¬((q1, q2) = (row, col)) ∧
        Nat.dist q1 row ≤ 1 ∧ Nat.dist q2 col ≤ 1 := by
  rw [List.mem_filterMap]
  constructor
  · rintro ⟨⟨d1, d2⟩, hd, hfd⟩
    unfold offsetTarget at hfd
    by_cases hcond : (inRange size ((row : Int) + d1) && inRange size ((col : Int) + d2)) = true
    · rw [if_pos hcond] at hfd
      simp only [Option.some.injEq, Prod.mk.injEq] at hfd
      obtain ⟨hq1, hq2⟩ := hfd
      simp only [inRange, Bool.and_eq_true, decide_eq_true_eq] at hcond
      simp only [neighborOffsets, List.mem_cons, Prod.mk.injEq, List.not_mem_nil, or_false] at hd
      simp only [Prod.mk.injEq, not_and, Nat.dist]
      omega
    · rw [if_neg hcond] at hfd
      simp at hfd
  · rintro ⟨⟨hq1s, hq2s⟩, hne, hd1, hd2⟩
    simp only [Prod.mk.injEq, not_and] at hne
    simp only [Nat.dist] at hd1 hd2
    refine ⟨((q1 : Int) - row, (q2 : Int) - col), ?_, ?_⟩
    · simp only [neighborOffsets, List.mem_cons, Prod.mk.injEq, List.not_mem_nil, or_false]
      omega
    · unfold offsetTarget
      have h1 : (row : Int) + ((q1 : Int) - row) = (q1 : Int) := by ring
      have h2 : (col : Int) + ((q2 : Int) - col) = (q2 : Int) := by ring
      rw [h1, h2]
      have hcond : (inRange size (q1 : Int) && inRange size (q2 : Int)) = true := by
        simp only [inRange, Bool.and_eq_true, decide_eq_true_eq]
        constructor <;> constructor <;> omega
      rw [if_pos hcond]
      simp

theorem countAdjacent_eq_moore (size : Nat) (b : Board) (row col : Nat) :
    countAdjacent size b row col = mooreMineCount size b row col := by
  rw [countAdjacent_eq_filterMap, mooreMineCount_eq_filter]
  refine List.Perm.countP_eq _ ?_
  rw [List.perm_ext_iff_of_nodup (filterMap_offsets_nodup size row col)
    ((gridPositions_nodup size).filter _)]
  rintro ⟨q1, q2⟩
  rw [mem_filterMap_offsets, List.mem_filter, mem_gridPositions]
  simp only [Bool.and_eq_true, decide_eq_true_eq]
  tauto

/-! ### Properties of a successful generateBoard run -/

theorem foldl_adjStep_countCells (size : Nat) (p : Cell → Bool)
    (hp : ∀ cl n, p { cl with adjacentMines := n } = p cl) (ps : List (Nat × Nat)) :
    ∀ b, countCells p (ps.foldl (adjStep size) b) = countCells p b := by
  induction ps with
  | nil => intro b; rfl
  | cons pp tl ih =>
    intro b
    rw [List.foldl_cons, ih]
    unfold adjStep
    split
    · rfl
    · split
      · rfl
      · exact countCells_modify_eq p _ b pp.1 pp.2 (fun cl => hp cl _)

theorem generateBoard_countMines (size mines : Nat) (draws : List (Nat × Nat)) (b : Board)
    (h : generateBoard size mines draws = some b) : countMines b = mines := by
  unfold generateBoard at h
  cases hp : placeMines mines (mkGrid size) 0 draws with
  | none => rw [hp] at h; cases h
  | some placed =>
    rw [hp] at h
    simp only [Option.map_some', Option.some.injEq] at h
    subst h
    rw [fillAdjacent_eq_foldl, countMines,
      foldl_adjStep_countCells size Cell.mine (fun cl n => rfl) _ placed]
    exact placeMines_countMines mines draws (mkGrid size) 0 placed
      (countMines_mkGrid size) (Nat.zero_le _) hp

theorem generateBoard_dims (size mines : Nat) (draws : List (Nat × Nat)) (b : Board)
    (h : generateBoard size mines draws = some b) :
    b.length = size ∧ ∀ row ∈ b, row.length = size := by
  unfold generateBoard at h
  cases hp : placeMines mines (mkGrid size) 0 draws with
  | none => rw [hp] at h; cases h
  | some placed =>
    rw [hp] at h
    simp only [Option.map_some', Option.some.injEq] at h
    subst h
    obtain ⟨hl1, hl2⟩ := placeMines_length mines draws (mkGrid size) 0 placed hp
    rw [fillAdjacent_eq_foldl]
    obtain ⟨hf1, hf2⟩ := foldl_adjStep_length size (gridPositions size) placed
    constructor
    · rw [hf1, hl1]
      simp [mkGrid]
    · intro row hrow
      rw [List.mem_iff_getElem?] at hrow
      obtain ⟨j, hj⟩ := hrow
      have hlen := (hf2 j).trans (hl2 j)
      rw [hj] at hlen
      unfold mkGrid at hlen
      rw [List.getElem?_replicate] at hlen
      by_cases hjs : j < size
      · rw [if_pos hjs] at hlen
        simpa using hlen
      · rw [if_neg hjs] at hlen
        simp at hlen

theorem generateBoard_cells_fresh (size mines : Nat) (draws : List (Nat × Nat)) (b : Board)
    (h : generateBoard size mines draws = some b) :
    ∀ r c cl, cellAt? b r c = some cl → cl.revealed = false ∧ cl.flagged = false := by
  unfold generateBoard at h
  cases hp : placeMines mines (mkGrid size) 0 draws with
  | none => rw [hp] at h; cases h
  | some placed =>
    rw [hp] at h
    simp only [Option.map_some', Option.some.injEq] at h
    subst h
    intro r c cl hcl
    rw [fillAdjacent_eq_foldl] at hcl
    have h1 := foldl_adjStep_components size (gridPositions size) placed r c
    rw [hcl] at h1
    cases hc2 : cellAt? placed r c with
    | none => rw [hc2] at h1; simp at h1
    | some cl2 =>
      rw [hc2] at h1
      simp only [Option.map_some', Option.some.injEq, Prod.mk.injEq] at h1
      obtain ⟨hrev, _, hflag⟩ := h1
      have h2 := placeMines_preserves mines draws (mkGrid size) 0 placed hp r c
      rw [hc2] at h2
      cases hc3 : cellAt? (mkGrid size) r c with
      | none => rw [hc3] at h2; simp at h2
      | some cl3 =>
        rw [hc3] at h2
        simp only [Option.map_some', Option.some.injEq, Prod.mk.injEq] at h2
        obtain ⟨hrev2, hflag2, _⟩ := h2
        rw [cellAt?_mkGrid] at hc3
        by_cases hb : r < size ∧ c < size
        · rw [if_pos hb, Option.some.injEq] at hc3
          subst hc3
          exact ⟨hrev.trans hrev2, hflag.trans hflag2⟩
        · rw [if_neg hb] at hc3
          cases hc3

theorem generateBoard_adjacent (size mines : Nat) (draws : List (Nat × Nat)) (b : Board)
    (h : generateBoard size mines draws = some b) :
    ∀ r c cl, cellAt? b r c = some cl →
      (cl.mine = true → cl.adjacentMines = 0) ∧
      (cl.mine = false → cl.adjacentMines = countAdjacent size b r c) := by
  have hdims := generateBoard_dims size mines draws b h
  unfold generateBoard at h
  cases hp : placeMines mines (mkGrid size) 0 draws with
  | none => rw [hp] at h; cases h
  | some placed =>
    rw [hp] at h
    simp only [Option.map_some', Option.some.injEq] at h
    subst h
    intro r c cl hcl
    obtain ⟨row, hrow, hcell⟩ :
        ∃ row, (fillAdjacent size placed)[r]? = some row ∧ row[c]? = some cl := by
      unfold cellAt? at hcl
      cases hx : (fillAdjacent size placed)[r]? with
      | none => rw [hx] at hcl; simp at hcl
      | some row => rw [hx] at hcl; exact ⟨row, rfl, hcl⟩
    have hrs : r < size := by
      obtain ⟨hlt, -⟩ := List.getElem?_eq_some_iff.mp hrow
      rw [hdims.1] at hlt
      exact hlt
    have hcs : c < size := by
      obtain ⟨hlt, -⟩ := List.getElem?_eq_some_iff.mp hcell
      rw [hdims.2 row (List.mem_iff_getElem?.mpr ⟨r, hrow⟩)] at hlt
      exact hlt
    have hmem : (r, c) ∈ gridPositions size := (mem_gridPositions size r c).mpr ⟨hrs, hcs⟩
    rw [fillAdjacent_eq_foldl] at hcl
    have hmap := foldl_adjStep_cellAt? size (gridPositions size) placed r c
    rw [hcl] at hmap
    have hcong : countAdjacent size (fillAdjacent size placed) r c =
        countAdjacent size placed r c := by
      rw [fillAdjacent_eq_foldl]
      exact countAdjacent_congr size placed _ r c
        (fun r' c' => foldl_adjStep_mineAt size _ placed r' c')
    cases hc2 : cellAt? placed r c with
    | none => rw [hc2] at hmap; simp at hmap
    | some cl2 =>
      rw [hc2] at hmap
      simp only [Option.map_some', Option.some.injEq] at hmap
      have hadj0 : cl2.adjacentMines = 0 := by
        have h2 := placeMines_preserves mines draws (mkGrid size) 0 placed hp r c
        rw [hc2, cellAt?_mkGrid, if_pos ⟨hrs, hcs⟩] at h2
        simp only [Option.map_some', Option.some.injEq, Prod.mk.injEq] at h2
        exact h2.2.2
      by_cases hm2 : cl2.mine = false
      · rw [if_pos ⟨hmem, hm2⟩] at hmap
        have hclmine : cl.mine = cl2.mine := by rw [hmap]
        have hcladj : cl.adjacentMines = countAdjacent size placed r c := by rw [hmap]
        constructor
        · intro hmine
          rw [hclmine, hm2] at hmine
          cases hmine
        · intro _
          rw [hcladj, hcong]
      · rw [if_neg (fun hand => hm2 hand.2)] at hmap
        constructor
        · intro _
          rw [hmap]
          exact hadj0
        · intro hminef
          rw [hmap] at hminef
          exact absurd hminef hm2

/-! ### Evaluation lemmas for the two transitions -/

theorem revealCell_terminal (s : GameState) (row col : Nat)
    (h : (s.gameOver || s.gameWon) = true) : revealCell s row col = .ok s := by
  unfold revealCell
  rw [if_pos h]

theorem toggleFlag_terminal (s : GameState) (row col : Nat)
    (h : (s.gameOver || s.gameWon) = true) : toggleFlag s row col = .ok s := by
  unfold toggleFlag
  rw [if_pos h]

theorem revealCell_oob (s : GameState) (row col : Nat)
    (ho : s.gameOver = false) (hw : s.gameWon = false)
    (hc : cellAt? s.board row col = none) :
    revealCell s row col = .error .typeError := by
  simp only [revealCell, ho, hw, hc, Bool.or_self, Bool.false_eq_true, if_false]

theorem toggleFlag_oob (s : GameState) (row col : Nat)
    (ho : s.gameOver = false) (hw : s.gameWon = false)
    (hc : cellAt? s.board row col = none) :
    toggleFlag s row col = .error .typeError := by
  simp only [toggleFlag, ho, hw, hc, Bool.or_self, Bool.false_eq_true, if_false]

theorem revealCell_guarded (s : GameState) (row col : Nat) (cell : Cell)
    (ho : s.gameOver = false) (hw : s.gameWon = false)
    (hc : cellAt? s.board row col = some cell)
    (hg : (cell.revealed || cell.flagged) = true) :
    revealCell s row col = .ok s := by
  simp only [revealCell, ho, hw, hc, hg, Bool.or_self, Bool.false_eq_true, if_false, if_true]

theorem toggleFlag_guarded (s : GameState) (row col : Nat) (cell : Cell)
    (ho : s.gameOver = false) (hw : s.gameWon = false)
    (hc : cellAt? s.board row col = some cell)
    (hg : cell.revealed = true) :
    toggleFlag s row col = .ok s := by
  simp only [toggleFlag, ho, hw, hc, hg, Bool.or_self, Bool.false_eq_true, if_false, if_true]

theorem revealCell_eq_playing (s : GameState) (row col : Nat) (cell : Cell)
    (ho : s.gameOver = false) (hw : s.gameWon = false)
    (hc : cellAt? s.board row col = some cell)
    (hr : cell.revealed = false) (hf : cell.flagged = false) :
    revealCell s row col =
      (if cell.mine then
        .ok { s with
              board := modifyCell s.board row col (fun cl => { cl with revealed := true })
              gameOver := true }
       else if winCheck (modifyCell s.board row col (fun cl => { cl with revealed := true })) then
        .ok { s with
              board := modifyCell s.board row col (fun cl => { cl with revealed := true })
              gameWon := true }
       else
        .ok { s with
              board := modifyCell s.board row col (fun cl => { cl with revealed := true }) }) := by
  have hsome : cellAt? (modifyCell s.board row col fun cl => { cl with revealed := true }) row col
      = some { cell with revealed := true } := by
    rw [cellAt?_modifyCell, if_pos ⟨rfl, rfl⟩, hc]
    rfl
  simp only [revealCell, ho, hw, hc, hr, hf, hsome, Bool.or_self, Bool.false_eq_true, if_false]

theorem toggleFlag_eq_playing (s : GameState) (row col : Nat) (cell : Cell)
    (ho : s.gameOver = false) (hw : s.gameWon = false)
    (hc : cellAt? s.board row col = some cell)
    (hr : cell.revealed = false) :
    toggleFlag s row col =
      .ok { s with
            board := modifyCell s.board row col (fun cl => { cl with flagged := !cl.flagged })
            flags := if !cell.flagged then s.flags - 1 else s.flags + 1 } := by
  have hsome : cellAt? (modifyCell s.board row col fun cl => { cl with flagged := !cl.flagged }) row col
      = some { cell with flagged := !cell.flagged } := by
    rw [cellAt?_modifyCell, if_pos ⟨rfl, rfl⟩, hc]
    rfl
  simp only [toggleFlag, ho, hw, hc, hr, hsome, Bool.or_self, Bool.false_eq_true, if_false]

theorem noRevealedMine_after_reveal (b : Board) (row col : Nat) (cell : Cell)
    (hc : cellAt? b row col = some cell) (hm : cell.mine = false)
    (h2 : ∀ r c cl, cellAt? b r c = some cl → cl.mine = true → cl.revealed = false) :
    ∀ r c cl, cellAt? (modifyCell b row col (fun cl => { cl with revealed := true })) r c = some cl →
      cl.mine = true → cl.revealed = false := by
  obtain ⟨crv, cm, ca, cf⟩ := cell
  intro r c cl hcl hmine
  rw [cellAt?_modifyCell] at hcl
  by_cases hrc : row = r ∧ col = c
  · rw [if_pos hrc] at hcl
    obtain ⟨rfl, rfl⟩ := hrc
    rw [hc] at hcl
    simp only [Option.map_some', Option.some.injEq] at hcl
    subst hcl
    dsimp only at hmine hm
    subst hm
    cases hmine
  · rw [if_neg hrc] at hcl
    exact h2 r c cl hcl hmine

theorem bool_or_false_left (a b : Bool) (h : ¬((a || b) = true)) : a = false := by
  revert h
  cases a <;> simp

theorem bool_or_false_right (a b : Bool) (h : ¬((a || b) = true)) : b = false := by
  revert h
  cases a <;> cases b <;> simp

/-- One step of the state machine preserves the two safety invariants:
the terminal flags are never both raised, and while the game is not lost
no mine is revealed. -/
theorem step_preserves_inv (s : GameState) (a : Action)
    (h1 : ¬(s.gameOver = true ∧ s.gameWon = true))
    (h2 : s.gameOver = false →
      ∀ r c cl, cellAt? s.board r c = some cl → cl.mine = true → cl.revealed = false) :
    ¬((step s a).gameOver = true ∧ (step s a).gameWon = true) ∧
      ((step s a).gameOver = false →
        ∀ r c cl, cellAt? (step s a).board r c = some cl → cl.mine = true → cl.revealed = false) := by
  cases a with
  | reveal row col =>
    by_cases hterm : (s.gameOver || s.gameWon) = true
    · simp only [step, revealCell_terminal s row col hterm, runExcept]
      exact ⟨h1, h2⟩
    · have ho : s.gameOver = false := bool_or_false_left _ _ hterm
      have hw : s.gameWon = false := bool_or_false_right _ _ hterm
      cases hc : cellAt? s.board row col with
      | none =>
        simp only [step, revealCell_oob s row col ho hw hc, runExcept]
        exact ⟨h1, h2⟩
      | some cell =>
        by_cases hg : (cell.revealed || cell.flagged) = true
        · simp only [step, revealCell_guarded s row col cell ho hw hc hg, runExcept]
          exact ⟨h1, h2⟩
        · have hr : cell.revealed = false := bool_or_false_left _ _ hg
          have hf : cell.flagged = false := bool_or_false_right _ _ hg
          simp only [step, revealCell_eq_playing s row col cell ho hw hc hr hf]
          by_cases hm : cell.mine = true
          · rw [if_pos hm]
            simp only [runExcept]
            constructor
            · intro hand
              rw [hw] at hand
              exact absurd hand.2 (by simp)
            · intro hover
              simp at hover
          · rw [if_neg hm]
            have hmf : cell.mine = false := by
              revert hm
              cases cell.mine <;> simp
            have hboard := noRevealedMine_after_reveal s.board row col cell hc hmf (h2 ho)
            by_cases hwin : winCheck (modifyCell s.board row col
                (fun cl => { cl with revealed := true })) = true
            · rw [if_pos hwin]
              simp only [runExcept]
              constructor
              · intro hand
                rw [ho] at hand
                exact absurd hand.1 (by simp)
              · intro _
                exact hboard
            · rw [if_neg hwin]
              simp only [runExcept]
              constructor
              · intro hand
                rw [hw] at hand
                exact absurd hand.2 (by simp)
              · intro _
                exact hboard
  | flag row col =>
    by_cases hterm : (s.gameOver || s.gameWon) = true
    · simp only [step, toggleFlag_terminal s row col hterm, runExcept]
      exact ⟨h1, h2⟩
    · have ho : s.gameOver = false := bool_or_false_left _ _ hterm
      have hw : s.gameWon = false := bool_or_false_right _ _ hterm
      cases hc : cellAt? s.board row col with
      | none =>
        simp only [step, toggleFlag_oob s row col ho hw hc, runExcept]
        exact ⟨h1, h2⟩
      | some cell =>
        by_cases hg : cell.revealed = true
        · simp only [step, toggleFlag_guarded s row col cell ho hw hc hg, runExcept]
          exact ⟨h1, h2⟩
        · have hr : cell.revealed = false := by
            revert hg
            cases cell.revealed <;> simp
          simp only [step, toggleFlag_eq_playing s row col cell ho hw hc hr, runExcept]
          constructor
          · intro hand
            rw [hw] at hand
            exact absurd hand.2 (by simp)
          · intro _
            intro r c cl hcl hmine
            rw [cellAt?_modifyCell] at hcl
            by_cases hrc : row = r ∧ col = c
            · rw [if_pos hrc] at hcl
              obtain ⟨rfl, rfl⟩ := hrc
              rw [hc] at hcl
              simp only [Option.map_some', Option.some.injEq] at hcl
              obtain ⟨crv, cm, ca, cf⟩ := cell
              subst hcl
              dsimp only at hmine hr ⊢
              exact hr
            · rw [if_neg hrc] at hcl
              exact h2 ho r c cl hcl hmine

/-- Both invariants hold in every state a sequence of player actions can
reach. -/
theorem runGame_inv (acts : List Action) : ∀ s : GameState,
    ¬(s.gameOver = true ∧ s.gameWon = true) →
    (s.gameOver = false →
      ∀ r c cl, cellAt? s.board r c = some cl → cl.mine = true → cl.revealed = false) →
    (¬((runGame s acts).gameOver = true ∧ (runGame s acts).gameWon = true) ∧
      ((runGame s acts).gameOver = false →
        ∀ r c cl, cellAt? (runGame s acts).board r c = some cl →
          cl.mine = true → cl.revealed = false)) := by
  induction acts with
  | nil => intro s h1 h2; exact ⟨h1, h2⟩
  | cons a tl ih =>
    intro s h1 h2
    obtain ⟨h1s, h2s⟩ := step_preserves_inv s a h1 h2
    exact ih (step s a) h1s h2s

/-! ### The claims -/

/-- C1: in a Playing state, revealing an unrevealed, unflagged cell marks it
revealed; if it is a mine the game transitions to Lost with no win-condition
evaluation, otherwise the game transitions to Won exactly when every cell of
the grid is revealed or a mine. -/
theorem claim1_reveal_outcome (s : GameState) (row col : Nat) (cell : Cell)
    (ho : s.gameOver = false) (hw : s.gameWon = false)
    (hc : cellAt? s.board row col = some cell)
    (hr : cell.revealed = false) (hf : cell.flagged = false) :
    ∃ s', revealCell s row col = .ok s' ∧
      cellAt? s'.board row col = some { cell with revealed := true } ∧
      (cell.mine = true → s'.gameOver = true ∧ s'.gameWon = false) ∧
      (cell.mine = false → s'.gameOver = false ∧
        (s'.gameWon = true ↔
          ∀ rowL ∈ s'.board, ∀ cl ∈ rowL, cl.revealed = true ∨ cl.mine = true)) := by
  have hsome : cellAt? (modifyCell s.board row col fun cl => { cl with revealed := true }) row col
      = some { cell with revealed := true } := by
    rw [cellAt?_modifyCell, if_pos ⟨rfl, rfl⟩, hc]
    rfl
  rw [revealCell_eq_playing s row col cell ho hw hc hr hf]
  by_cases hm : cell.mine = true
  · rw [if_pos hm]
    refine ⟨_, rfl, hsome, fun _ => ⟨rfl, hw⟩, fun hmf => ?_⟩
    rw [hmf] at hm
    cases hm
  · rw [if_neg hm]
    by_cases hwin : winCheck (modifyCell s.board row col fun cl => { cl with revealed := true }) = true
    · rw [if_pos hwin]
      refine ⟨_, rfl, hsome, fun hmt => absurd hmt hm, fun _ => ⟨ho, ?_, ?_⟩⟩
      · intro _
        simp only [winCheck, List.all_eq_true] at hwin
        intro rowL hrow cl hcl
        have hx := hwin rowL hrow cl hcl
        revert hx
        cases cl.revealed <;> cases cl.mine <;> simp
      · intro _
        rfl
    · rw [if_neg hwin]
      refine ⟨_, rfl, hsome, fun hmt => absurd hmt hm, fun _ => ⟨ho, ?_, ?_⟩⟩
      · intro hwonT
        rw [hw] at hwonT
        cases hwonT
      · intro hall
        exfalso
        apply hwin
        simp only [winCheck, List.all_eq_true]
        intro rowL hrow cl hcl
        have hx := hall rowL hrow cl hcl
        revert hx
        cases cl.revealed <;> cases cl.mine <;> simp

/-- Witness for C1 at a concrete input: a 1-cell mine-free game. -/
theorem claim1_witness :
    ∃ s', revealCell (newGame [[freshCell]]) 0 0 = .ok s' ∧
      cellAt? s'.board 0 0 = some { freshCell with revealed := true } ∧
      (freshCell.mine = true → s'.gameOver = true ∧ s'.gameWon = false) ∧
      (freshCell.mine = false → s'.gameOver = false ∧
        (s'.gameWon = true ↔
          ∀ rowL ∈ s'.board, ∀ cl ∈ rowL, cl.revealed = true ∨ cl.mine = true)) :=
  claim1_reveal_outcome (newGame [[freshCell]]) 0 0 freshCell rfl rfl (by decide) rfl rfl

/-- C2: a successfully generated board is a size × size grid holding exactly
mineCount mines (one per cell), with every cell unrevealed and unflagged. -/
theorem claim2_generate_valid (size mines : Nat) (draws : List (Nat × Nat)) (b : Board)
    (_hsize : 0 < size) (_hmines : mines < size * size)
    (hgen : generateBoard size mines draws = some b) :
    (b.length = size ∧ ∀ row ∈ b, row.length = size) ∧
      countMines b = mines ∧
      ∀ r c cl, cellAt? b r c = some cl → cl.revealed = false ∧ cl.flagged = false :=
  ⟨generateBoard_dims size mines draws b hgen,
   generateBoard_countMines size mines draws b hgen,
   generateBoard_cells_fresh size mines draws b hgen⟩

/-- Witness for C2 at a concrete input: a 2 × 2 board with one mine. -/
theorem claim2_witness :
    let bW : Board := [[⟨false, true, 0, false⟩, ⟨false, false, 1, false⟩],
      [⟨false, false, 1, false⟩, ⟨false, false, 1, false⟩]]
    (bW.length = 2 ∧ ∀ row ∈ bW, row.length = 2) ∧
      countMines bW = 1 ∧
      ∀ r c cl, cellAt? bW r c = some cl → cl.revealed = false ∧ cl.flagged = false :=
  claim2_generate_valid 2 1 [(0, 0)] _ (by decide) (by decide) (by decide)

/-- C3: on every generated board, each non-mine cell's adjacentMines equals
the number of in-bounds Moore-neighborhood cells that are mines, and each
mine cell keeps adjacentMines = 0. -/
theorem claim3_adjacency (size mines : Nat) (draws : List (Nat × Nat)) (b : Board)
    (hgen : generateBoard size mines draws = some b) :
    ∀ r c cl, cellAt? b r c = some cl →
      (cl.mine = false → cl.adjacentMines = mooreMineCount size b r c) ∧
      (cl.mine = true → cl.adjacentMines = 0) := by
  intro r c cl hcl
  obtain ⟨hmine0, hnonmine⟩ := generateBoard_adjacent size mines draws b hgen r c cl hcl
  exact ⟨fun hmf => (hnonmine hmf).trans (countAdjacent_eq_moore size b r c), hmine0⟩

/-- Witness for C3 at the concrete 2 × 2 generated board. -/
theorem claim3_witness :
    let bW : Board := [[⟨false, true, 0, false⟩, ⟨false, false, 1, false⟩],
      [⟨false, false, 1, false⟩, ⟨false, false, 1, false⟩]]
    ∀ r c cl, cellAt? bW r c = some cl →
      (cl.mine = false → cl.adjacentMines = mooreMineCount 2 bW r c) ∧
      (cl.mine = true → cl.adjacentMines = 0) :=
  claim3_adjacency 2 1 [(0, 0)] _ (by decide)

/-- C4: one reveal call changes the revealed flag of no cell other than the
target, and of no cell at all when a guard rejects it — in particular a
zero-adjacency reveal does not cascade. -/
theorem claim4_reveal_frame (s s' : GameState) (row col : Nat)
    (h : revealCell s row col = .ok s') :
    (∀ r c, ¬(r = row ∧ c = col) →
      (cellAt? s'.board r c).map Cell.revealed = (cellAt? s.board r c).map Cell.revealed) ∧
    ((s.gameOver = true ∨ s.gameWon = true) → s' = s) ∧
    (∀ cell, cellAt? s.board row col = some cell →
      (cell.revealed || cell.flagged) = true → s' = s) := by
  by_cases hterm : (s.gameOver || s.gameWon) = true
  · rw [revealCell_terminal s row col hterm] at h
    injection h with h
    subst h
    exact ⟨fun _ _ _ => rfl, fun _ => rfl, fun _ _ _ => rfl⟩
  · have ho := bool_or_false_left _ _ hterm
    have hw := bool_or_false_right _ _ hterm
    cases hc : cellAt? s.board row col with
    | none =>
      rw [revealCell_oob s row col ho hw hc] at h
      cases h
    | some cell =>
      by_cases hg : (cell.revealed || cell.flagged) = true
      · rw [revealCell_guarded s row col cell ho hw hc hg] at h
        injection h with h
        subst h
        exact ⟨fun _ _ _ => rfl, fun _ => rfl, fun _ _ _ => rfl⟩
      · have hr := bool_or_false_left _ _ hg
        have hf := bool_or_false_right _ _ hg
        rw [revealCell_eq_playing s row col cell ho hw hc hr hf] at h
        have hframe : ∀ r c, ¬(r = row ∧ c = col) →
            (cellAt? (modifyCell s.board row col fun cl => { cl with revealed := true }) r c).map
              Cell.revealed = (cellAt? s.board r c).map Cell.revealed := by
          intro r c hrc
          rw [cellAt?_modifyCell, if_neg (fun hand => hrc ⟨hand.1.symm, hand.2.symm⟩)]
        have hterm2 : (s.gameOver = true ∨ s.gameWon = true) → False := by
          rintro (hx | hx)
          · rw [ho] at hx
            cases hx
          · rw [hw] at hx
            cases hx
        have hguard2 : ∀ cell2 : Cell, some cell = some cell2 →
            (cell2.revealed || cell2.flagged) = true → False := by
          intro cell2 hc2 hg2
          injection hc2 with hc2
          subst hc2
          exact hg hg2
        split at h
        · injection h with h
          subst h
          exact ⟨hframe, fun hx => (hterm2 hx).elim,
            fun cell2 hc2 hg2 => (hguard2 cell2 hc2 hg2).elim⟩
        · split at h <;>
            (injection h with h; subst h;
              exact ⟨hframe, fun hx => (hterm2 hx).elim,
                fun cell2 hc2 hg2 => (hguard2 cell2 hc2 hg2).elim⟩)

/-- Witness for C4 at a concrete input: revealing the mine of a 1-cell game. -/
theorem claim4_witness :
    (∀ r c, ¬(r = 0 ∧ c = 0) →
      (cellAt? ({ board := [[⟨true, true, 0, false⟩]]
                  gameOver := true
                  gameWon := false
                  flags := 15 } : GameState).board r c).map Cell.revealed =
        (cellAt? (newGame [[⟨false, true, 0, false⟩]]).board r c).map Cell.revealed) ∧
    (((newGame [[⟨false, true, 0, false⟩]]).gameOver = true ∨
        (newGame [[⟨false, true, 0, false⟩]]).gameWon = true) →
      ({ board := [[⟨true, true, 0, false⟩]]
         gameOver := true
         gameWon := false
         flags := 15 } : GameState) = newGame [[⟨false, true, 0, false⟩]]) ∧
    (∀ cell, cellAt? (newGame [[⟨false, true, 0, false⟩]]).board 0 0 = some cell →
      (cell.revealed || cell.flagged) = true →
      ({ board := [[⟨true, true, 0, false⟩]]
         gameOver := true
         gameWon := false
         flags := 15 } : GameState) = newGame [[⟨false, true, 0, false⟩]]) :=
  claim4_reveal_frame (newGame [[⟨false, true, 0, false⟩]]) _ 0 0 rfl

/-- C5: every guard is a silent no-op — acting in a terminal state, revealing
a revealed or flagged cell, and flagging a revealed cell all return the state
unchanged and raise no error. -/
theorem claim5_guards_silent (s : GameState) (row col : Nat) :
    ((s.gameOver = true ∨ s.gameWon = true) →
      revealCell s row col = .ok s ∧ toggleFlag s row col = .ok s) ∧
    (s.gameOver = false → s.gameWon = false →
      ∀ cell, cellAt? s.board row col = some cell →
        ((cell.revealed = true ∨ cell.flagged = true) → revealCell s row col = .ok s) ∧
        (cell.revealed = true → toggleFlag s row col = .ok s)) := by
  constructor
  · intro hterm
    have ht : (s.gameOver || s.gameWon) = true := by
      rcases hterm with hx | hx <;> simp [hx]
    exact ⟨revealCell_terminal s row col ht, toggleFlag_terminal s row col ht⟩
  · intro ho hw cell hc
    constructor
    · intro hg
      refine revealCell_guarded s row col cell ho hw hc ?_
      rcases hg with hx | hx <;> simp [hx]
    · intro hg
      exact toggleFlag_guarded s row col cell ho hw hc hg

/-- Witness for C5 at concrete inputs: a lost game and a flagged cell. -/
theorem claim5_witness :
    (revealCell ({ board := [[freshCell]]
                   gameOver := true
                   gameWon := false
                   flags := 15 } : GameState) 0 0 =
        .ok ({ board := [[freshCell]]
               gameOver := true
               gameWon := false
               flags := 15 } : GameState)) ∧
    revealCell (newGame [[⟨false, false, 0, true⟩]]) 0 0 =
      .ok (newGame [[⟨false, false, 0, true⟩]]) :=
  ⟨((claim5_guards_silent _ 0 0).1 (Or.inl rfl)).1,
   ((claim5_guards_silent (newGame [[⟨false, false, 0, true⟩]]) 0 0).2 rfl rfl
      ⟨false, false, 0, true⟩ rfl).1 (Or.inr rfl)⟩

theorem toggleFlag_unflag_aux (s1 : GameState) (row col : Nat) (cm : Bool) (ca : Nat)
    (ho : s1.gameOver = false) (hw : s1.gameWon = false)
    (hc : cellAt? s1.board row col = some ⟨false, cm, ca, true⟩) :
    ∃ s'', toggleFlag s1 row col = .ok s'' ∧ s''.flags = s1.flags + 1 ∧
      cellAt? s''.board row col = some ⟨false, cm, ca, false⟩ := by
  rw [toggleFlag_eq_playing s1 row col ⟨false, cm, ca, true⟩ ho hw hc rfl]
  refine ⟨_, rfl, rfl, ?_⟩
  rw [cellAt?_modifyCell, if_pos ⟨rfl, rfl⟩, hc]
  rfl

/-- C6 counterexample: calling toggleFlag on an already-flagged cell is not a
no-op — it unflags the cell and changes flagsRemaining. -/
theorem claim6_counterexample :
    toggleFlag (newGame [[⟨false, false, 0, true⟩]]) 0 0 =
        .ok ({ board := [[⟨false, false, 0, false⟩]]
               gameOver := false
               gameWon := false
               flags := 16 } : GameState) ∧
      ({ board := [[⟨false, false, 0, false⟩]]
         gameOver := false
         gameWon := false
         flags := 16 } : GameState) ≠ newGame [[⟨false, false, 0, true⟩]] := by
  constructor
  · rfl
  · decide

/-- C6 amended: a fresh game starts with flagsRemaining = TOTAL_MINES; in a
Playing state, flagging an unrevealed unflagged cell decrements
flagsRemaining, toggling again restores both the cell's flagged bit and the
counter, and toggling an already-flagged cell never decrements further — it
unflags the cell and increments the counter by one. -/
theorem claim6_flag_accounting (b : Board) (s : GameState) (row col : Nat) (cell : Cell)
    (ho : s.gameOver = false) (hw : s.gameWon = false)
    (hc : cellAt? s.board row col = some cell) (hr : cell.revealed = false) :
    (newGame b).flags = (TOTAL_MINES : Int) ∧
    (cell.flagged = false →
      ∃ s', toggleFlag s row col = .ok s' ∧ s'.flags = s.flags - 1 ∧
        cellAt? s'.board row col = some { cell with flagged := true } ∧
        ∃ s'', toggleFlag s' row col = .ok s'' ∧ s''.flags = s.flags ∧
          cellAt? s''.board row col = some cell) ∧
    (cell.flagged = true →
      ∃ s', toggleFlag s row col = .ok s' ∧ s'.flags = s.flags + 1 ∧
        cellAt? s'.board row col = some { cell with flagged := false }) := by
  obtain ⟨crv, cm, ca, cf⟩ := cell
  dsimp only at hr
  subst hr
  refine ⟨rfl, ?_, ?_⟩
  · intro hflag
    dsimp only at hflag
    subst hflag
    rw [toggleFlag_eq_playing s row col ⟨false, cm, ca, false⟩ ho hw hc rfl]
    have hcell1 : cellAt? (modifyCell s.board row col fun cl => { cl with flagged := !cl.flagged })
        row col = some ⟨false, cm, ca, true⟩ := by
      rw [cellAt?_modifyCell, if_pos ⟨rfl, rfl⟩, hc]
      rfl
    refine ⟨_, rfl, rfl, hcell1, ?_⟩
    obtain ⟨s'', h2, hfl, hcell2⟩ := toggleFlag_unflag_aux
      { s with
        board := modifyCell s.board row col fun cl => { cl with flagged := !cl.flagged }
        flags := s.flags - 1 } row col cm ca ho hw hcell1
    have hfl2 : s''.flags = s.flags - 1 + 1 := hfl
    exact ⟨s'', h2, by omega, hcell2⟩
  · intro hflag
    dsimp only at hflag
    subst hflag
    rw [toggleFlag_eq_playing s row col ⟨false, cm, ca, true⟩ ho hw hc rfl]
    refine ⟨_, rfl, rfl, ?_⟩
    rw [cellAt?_modifyCell, if_pos ⟨rfl, rfl⟩, hc]
    rfl

/-- Witness for C6 at a concrete input: the 1-cell fresh game. -/
theorem claim6_witness :
    (newGame [[freshCell]]).flags = (TOTAL_MINES : Int) ∧
    (freshCell.flagged = false →
      ∃ s', toggleFlag (newGame [[freshCell]]) 0 0 = .ok s' ∧
        s'.flags = (newGame [[freshCell]]).flags - 1 ∧
        cellAt? s'.board 0 0 = some { freshCell with flagged := true } ∧
        ∃ s'', toggleFlag s' 0 0 = .ok s'' ∧ s''.flags = (newGame [[freshCell]]).flags ∧
          cellAt? s''.board 0 0 = some freshCell) ∧
    (freshCell.flagged = true →
      ∃ s', toggleFlag (newGame [[freshCell]]) 0 0 = .ok s' ∧
        s'.flags = (newGame [[freshCell]]).flags + 1 ∧
        cellAt? s'.board 0 0 = some { freshCell with flagged := false }) :=
  claim6_flag_accounting [[freshCell]] (newGame [[freshCell]]) 0 0 freshCell rfl rfl rfl rfl

/-- C7: starting from a freshly generated game, no sequence of reveal and
toggle-flag actions ever reaches a state with gameOver and gameWon both
true. -/
theorem claim7_terminal_exclusive (size mines : Nat) (draws : List (Nat × Nat)) (b : Board)
    (hgen : generateBoard size mines draws = some b) (acts : List Action) :
    ¬((runGame (newGame b) acts).gameOver = true ∧
      (runGame (newGame b) acts).gameWon = true) := by
  have hfresh := generateBoard_cells_fresh size mines draws b hgen
  refine (runGame_inv acts (newGame b) ?_ ?_).1
  · intro hand
    cases hand.1
  · intro _ r c cl hcl _
    exact (hfresh r c cl hcl).1

/-- Witness for C7 at a concrete input: a mine-free 1-cell game, revealed. -/
theorem claim7_witness :
    ¬((runGame (newGame [[freshCell]]) [Action.reveal 0 0]).gameOver = true ∧
      (runGame (newGame [[freshCell]]) [Action.reveal 0 0]).gameWon = true) :=
  claim7_terminal_exclusive 1 0 [] [[freshCell]] (by decide) [Action.reveal 0 0]

/-- C8 counterexample: generateBoard performs no validation — with
mineCount = size² (which is ≥ size²) it runs the placement loop and
returns a fully mined board instead of failing with any error. -/
theorem claim8_counterexample :
    generateBoard 1 1 [(0, 0)] =
      some [[{ revealed := false, mine := true, adjacentMines := 0, flagged := false }]] := by
  decide

/-- C8 amended: the code contains no InvalidConfiguration check; whenever
mineCount exceeds size² the placement loop can never finish — no draw
sequence makes generateBoard yield a board (the loop runs forever). -/
theorem claim8_no_termination (size mines : Nat) (draws : List (Nat × Nat))
    (h : size * size < mines) : generateBoard size mines draws = none := by
  unfold generateBoard
  rw [placeMines_none mines draws (mkGrid size) 0 (by rw [countFree_mkGrid]; omega)]
  rfl

/-- Witness for C8 at a concrete input. -/
theorem claim8_witness : 1 * 1 < 2 ∧ generateBoard 1 2 [(0, 0), (0, 0)] = none :=
  ⟨by decide, claim8_no_termination 1 2 [(0, 0), (0, 0)] (by decide)⟩

/-- C9 counterexample: out-of-range coordinates do raise — both operations
throw a TypeError when the game is in progress. -/
theorem claim9_counterexample :
    revealCell (newGame [[freshCell]]) 0 1 = .error .typeError ∧
      toggleFlag (newGame [[freshCell]]) 1 0 = .error .typeError :=
  ⟨rfl, rfl⟩

/-- C9 amended: in a non-terminal state an out-of-range coordinate makes
reveal and toggleFlag throw a TypeError (undefined property access); in a
terminal state the guard returns first, so nothing is thrown. -/
theorem claim9_oob_behavior (s : GameState) (row col : Nat)
    (hc : cellAt? s.board row col = none) :
    (s.gameOver = false → s.gameWon = false →
      revealCell s row col = .error .typeError ∧
        toggleFlag s row col = .error .typeError) ∧
    ((s.gameOver = true ∨ s.gameWon = true) →
      revealCell s row col = .ok s ∧ toggleFlag s row col = .ok s) := by
  constructor
  · intro ho hw
    exact ⟨revealCell_oob s row col ho hw hc, toggleFlag_oob s row col ho hw hc⟩
  · intro hterm
    have ht : (s.gameOver || s.gameWon) = true := by
      rcases hterm with hx | hx <;> simp [hx]
    exact ⟨revealCell_terminal s row col ht, toggleFlag_terminal s row col ht⟩

/-- Witness for C9 at a concrete input: column 1 of a 1-cell game. -/
theorem claim9_witness :
    ((newGame [[freshCell]]).gameOver = false → (newGame [[freshCell]]).gameWon = false →
      revealCell (newGame [[freshCell]]) 0 1 = .error .typeError ∧
        toggleFlag (newGame [[freshCell]]) 0 1 = .error .typeError) ∧
    (((newGame [[freshCell]]).gameOver = true ∨ (newGame [[freshCell]]).gameWon = true) →
      revealCell (newGame [[freshCell]]) 0 1 = .ok (newGame [[freshCell]]) ∧
        toggleFlag (newGame [[freshCell]]) 0 1 = .ok (newGame [[freshCell]])) :=
  claim9_oob_behavior (newGame [[freshCell]]) 0 1 rfl

/-- C10: in every state reachable from a freshly generated game, if the game
is won then no mine cell is revealed. -/
theorem claim10_won_no_revealed_mine (size mines : Nat) (draws : List (Nat × Nat)) (b : Board)
    (hgen : generateBoard size mines draws = some b) (acts : List Action)
    (hwon : (runGame (newGame b) acts).gameWon = true) :
    ∀ r c cl, cellAt? (runGame (newGame b) acts).board r c = some cl →
      cl.mine = true → cl.revealed = false := by
  have hfresh := generateBoard_cells_fresh size mines draws b hgen
  obtain ⟨h1, h2⟩ := runGame_inv acts (newGame b)
    (fun hand => by cases hand.1)
    (fun _ r c cl hcl _ => (hfresh r c cl hcl).1)
  refine h2 ?_
  cases hov : (runGame (newGame b) acts).gameOver
  · rfl
  · exact absurd ⟨hov, hwon⟩ h1

/-- Witness for C10 at a concrete input: after winning a 2 × 2 game with one
mine at (0,0) by revealing the other three cells, the mine is unrevealed. -/
theorem claim10_witness :
    cellAt? (runGame (newGame [[⟨false, true, 0, false⟩, ⟨false, false, 1, false⟩],
        [⟨false, false, 1, false⟩, ⟨false, false, 1, false⟩]])
      [Action.reveal 0 1, Action.reveal 1 0, Action.reveal 1 1]).board 0 0 =
        some ⟨false, true, 0, false⟩ ∧
      (⟨false, true, 0, false⟩ : Cell).revealed = false :=
  ⟨by decide,
   claim10_won_no_revealed_mine 2 1 [(0, 0)]
     [[⟨false, true, 0, false⟩, ⟨false, false, 1, false⟩],
      [⟨false, false, 1, false⟩, ⟨false, false, 1, false⟩]] (by decide)
     [Action.reveal 0 1, Action.reveal 1 0, Action.reveal 1 1] (by decide)
     0 0 ⟨false, true, 0, false⟩ (by decide) (by decide)⟩

end CampoMinado
